import Mathlib

/-!
Shallow embedding of the `@sansar/dependency` container (the full
implementation: `Container`, `Scope`/`Inject` declaration registries,
scoped providers, auto-construction with cycle detection, disposal).

Keys, scope tags and function identities are modelled as natural numbers
(in the source they are class identities and symbols, compared by
identity).  User-supplied `resolver` / `generator` functions and class
constructors are modelled as fresh-object allocators: each invocation
returns a distinct object (as `() => new A()` does) and is appended to a
call log, so that "invoked exactly once" is expressible.  The modelled
user functions do not call the `ctx.onDestroy` callback they receive.
-/

namespace Dependency

/-- A runtime value: an object identity plus whether the object exposes a
`Symbol.dispose` method (`Container.#isDisposable`). -/
structure Val where
  id : Nat
  disposable : Bool
deriving DecidableEq, Repr

/-- A user-supplied `resolver`/`generator` function: its identity (for the
call log) and whether the objects it returns are disposable. -/
structure Fn where
  id : Nat
  disposable : Bool
deriving DecidableEq, Repr

/-- One in-progress construction frame of `Container.#creating`:
`{ target?: Class; index?: number }`. -/
structure Frame where
  target : Option Nat
  index : Option Nat
deriving DecidableEq, Repr

/-- A disposal callback accumulated in `Container.#onDestroy`. -/
inductive Hook where
  /-- `() => this[Symbol.dispose]()` pushed on the parent at child construction. -/
  | disposeChild (child : Nat)
  /-- `() => hook(value)` for a registration-time or resolution-time `onDestroy` hook. -/
  | callFn (fn : Nat) (v : Val)
  /-- `() => value[Symbol.dispose](value)` for a disposable produced value. -/
  | disposeValue (v : Val)
deriving DecidableEq, Repr

/-- An observable effect of running disposal hooks. -/
inductive Event where
  | hookCalled (fn : Nat) (v : Val)
  | valueDisposed (v : Val)
deriving DecidableEq, Repr

/-- First-match lookup in an association list (a `WeakMap` keyed by class
identity). -/
def alookup (k : Nat) : List (Nat × α) → Option α
  | [] => none
  | (k', v) :: rest => if k' = k then some v else alookup k rest

/-- `WeakMap.set`: replace the binding if present, else append. -/
def aset (k : Nat) (v : α) : List (Nat × α) → List (Nat × α)
  | [] => [(k, v)]
  | (k', v') :: rest => if k' = k then (k, v) :: rest else (k', v') :: aset k v rest

/-- The per-instance state of one `Container`. -/
structure ContainerState where
  values : List (Nat × Val) := []
  resolvers : List (Nat × Fn) := []
  generators : List (Nat × Fn) := []
  onDestroyHooks : List (Nat × Nat) := []
  scopes : List (Nat × Nat) := []
  creating : List Frame := []
  onDestroy : List Hook := []
  parent : Option Nat := none
  scope : Option Nat := none
  disposed : Bool := false
deriving DecidableEq, Repr

instance : Inhabited ContainerState := ⟨{}⟩

/-- The heap of containers (indexed by id, ids handed out in construction
order), the fresh-object allocator and the user-function call log. -/
structure World where
  containers : List ContainerState := []
  fresh : Nat := 0
  calls : List Nat := []
deriving DecidableEq, Repr

def World.cont (w : World) (c : Nat) : ContainerState :=
  (w.containers.get? c).getD default

def World.modifyCont (w : World) (c : Nat) (f : ContainerState → ContainerState) : World :=
  { w with containers := w.containers.set c (f (w.cont c)) }

def World.pushHook (w : World) (c : Nat) (h : Hook) : World :=
  w.modifyCont c fun s => { s with onDestroy := s.onDestroy ++ [h] }

def World.setValue (w : World) (c : Nat) (k : Nat) (v : Val) : World :=
  w.modifyCont c fun s => { s with values := aset k v s.values }

def World.pushCreating (w : World) (c : Nat) (fr : Frame) : World :=
  w.modifyCont c fun s => { s with creating := s.creating ++ [fr] }

def World.popCreating (w : World) (c : Nat) : World :=
  w.modifyCont c fun s => { s with creating := s.creating.dropLast }

def World.clearCreating (w : World) (c : Nat) : World :=
  w.modifyCont c fun s => { s with creating := [] }

/-- `invocation.#creating.at(-1)!.target = key`. -/
def World.setLastCreatingTarget (w : World) (c : Nat) (k : Nat) : World :=
  w.modifyCont c fun s =>
    { s with creating := s.creating.dropLast ++
        (match s.creating.getLast? with
         | some fr => [{ fr with target := some k }]
         | none => []) }

/-- Allocate a fresh object and log the invocation of a user function. -/
def World.invoke (w : World) (fn : Fn) : World × Val :=
  ({ w with fresh := w.fresh + 1, calls := w.calls ++ [fn.id] },
   ⟨w.fresh, fn.disposable⟩)

/-- A dependency reference declared via `@Inject(...)`: a direct key or a
deferred `() => Key` forward reference; both resolve to the key. -/
inductive DepRef where
  | direct (key : Nat)
  | deferred (key : Nat)
deriving DecidableEq, Repr

/-- `tokens[i]` resolved immediately before use (the source inspects the
`prototype` descriptor to tell classes from thunks and invokes thunks). -/
def DepRef.resolve : DepRef → Nat
  | .direct k => k
  | .deferred k => k

/-- The decorator-layer registries: the module-level `injects` and `scopes`
`WeakMap`s populated by `@Inject(...tokens)` and `@Scope(scope)`, plus
which declared classes construct disposable instances. -/
structure Decls where
  injects : List (Nat × List DepRef) := []
  scopes : List (Nat × Nat) := []
  disposableClasses : List Nat := []
deriving DecidableEq, Repr

/-- `Reflect.construct(key, args)`: a fresh instance of the class. -/
def World.construct (w : World) (decls : Decls) (key : Nat) : World × Val :=
  ({ w with fresh := w.fresh + 1 },
   ⟨w.fresh, decide (key ∈ decls.disposableClasses)⟩)

/-- The distinguishable failure conditions. `fuelExhausted` is a model
artifact of the recursion bound, never reached with sufficient fuel. -/
inductive Err where
  | undefinedKey (key : Nat)
  | undefinedScope (scope : Nat)
  | duplicateKey (key : Nat)
  | duplicateScope (scope : Nat)
  | missingDependency (dependency : Nat) (target : Nat) (index : Nat)
  | circularDependency (chain : List Frame) (target : Nat)
  | fuelExhausted
deriving DecidableEq, Repr

instance {ε α : Type} [DecidableEq ε] [DecidableEq α] : DecidableEq (Except ε α) := fun x y =>
  match x, y with
  | .ok a, .ok b =>
    if h : a = b then .isTrue (by rw [h]) else .isFalse (by simp [h])
  | .error a, .error b =>
    if h : a = b then .isTrue (by rw [h]) else .isFalse (by simp [h])
  | .ok _, .error _ => .isFalse (by simp)
  | .error _, .ok _ => .isFalse (by simp)

namespace Container

/-- `Container.#scoped(scope)`: walk from `c` up the parent chain to the
nearest container whose scope tag matches, else UndefinedScope. -/
def scopedContainer (w : World) : Nat → Option Nat → Nat → Except Err Nat
  | 0, _, _ => .error .fuelExhausted
  | _ + 1, none, s => .error (.undefinedScope s)
  | fuel + 1, some c, s =>
    if (w.cont c).scope = some s then .ok c
    else scopedContainer w fuel (w.cont c).parent s

/-- Scope targeting for a provider: `scope ? invocation.#scoped(scope) : void 0`. -/
def scopeTarget (w : World) (invocation : Nat) : Option Nat → Nat → Except Err (Option Nat)
  | none, _ => .ok none
  | some s, fuel => (scopedContainer w fuel (some invocation) s).map some

/-- The dependency-resolution loop of auto-construction, parameterized by
the recursive resolution call (`invocation.#get(token, invocation)`):
resolve each declared dependency in order; on failure clear the shared
`#creating` list and convert UndefinedKey into MissingDependency. -/
def getDepsAux (recur : World → Nat → World × Except Err Val)
    (invocation target : Nat) :
    World → List DepRef → Nat → List Val → World × Except Err (List Val)
  | w, [], _, args => (w, .ok args)
  | w, d :: rest, i, args =>
    let token := d.resolve
    let w := w.pushCreating invocation ⟨none, some i⟩
    match recur w token with
    | (w, .ok v) =>
      let w := w.popCreating invocation
      getDepsAux recur invocation target w rest (i + 1) (args ++ [v])
    | (w, .error err) =>
      let w := w.clearCreating invocation
      match err with
      | .undefinedKey _ => (w, .error (.missingDependency token target i))
      | e => (w, .error e)

/-- The auto-construction fallback of `Container.#get` (reached when the
ancestry walk ends at a parentless container and an injection declaration
exists for the key): cycle detection against the shared in-progress frame
list, frame registration, dependency resolution, `Reflect.construct`, and
caching on the scope-matching container (else on `self`, the root where
the fallback was reached). -/
def autoConstruct (decls : Decls) (recur : World → Nat → World × Except Err Val)
    (fuel : Nat) (w : World) (self invocation key : Nat) (tokens : List DepRef) :
    World × Except Err Val :=
  -- Detect & handle circular dependencies
  if ((w.cont invocation).creating.any fun fr => fr.target = some key) then
    let chain := (w.cont invocation).creating.map
      fun fr => { fr with target := some (fr.target.getD key) }
    let w := w.clearCreating invocation
    (w, .error (.circularDependency chain key))
  else
    -- Register the target (should be first) in #creating
    let w :=
      if (w.cont invocation).creating.isEmpty then
        w.pushCreating invocation ⟨some key, none⟩
      else if ((w.cont invocation).creating.getLast?.bind Frame.target) = none then
        w.setLastCreatingTarget invocation key
      else w
    match getDepsAux recur invocation key w tokens 0 [] with
    | (w, .error e) => (w, .error e)
    | (w, .ok _args) =>
      -- Resolve target
      match scopeTarget w invocation (alookup key decls.scopes) fuel with
      | .error e => (w, .error e)
      | .ok scopedC =>
        let (w, value) := w.construct decls key
        let w := w.popCreating invocation
        let tgt := scopedC.getD self
        let w := w.setValue tgt key value
        let w := if value.disposable then w.pushHook tgt (.disposeValue value) else w
        (w, .ok value)

/-- `Container.#get(key, invocation)` on the container `self`.  The world is
threaded through errors (a thrown condition keeps all side effects
performed so far).  Branch order mirrors the source: values, generators,
resolvers, parent delegation, auto-construction, UndefinedKey. -/
def getImpl (decls : Decls) : Nat → World → Nat → Nat → Nat → World × Except Err Val
  | 0, w, _, _, _ => (w, .error .fuelExhausted)
  | fuel + 1, w, self, invocation, key =>
    let cs := w.cont self
    match alookup key cs.values with
    | some value =>
      -- NOTE: no need to check & schedule registered onDestroy hook for {value}
      let w := if value.disposable then w.pushHook self (.disposeValue value) else w
      (w, .ok value)
    | none =>
    match alookup key cs.generators with
    | some fn =>
      match Container.scopeTarget w invocation (alookup key cs.scopes) fuel with
      | .error e => (w, .error e)
      | .ok scopedC =>
        let (w, value) := w.invoke fn
        let tgt := scopedC.getD self
        let w := match alookup key cs.onDestroyHooks with
          | some hook => w.pushHook tgt (.callFn hook value)
          | none => w
        let w := if value.disposable then w.pushHook tgt (.disposeValue value) else w
        (w, .ok value)
    | none =>
    match alookup key cs.resolvers with
    | some fn =>
      match Container.scopeTarget w invocation (alookup key cs.scopes) fuel with
      | .error e => (w, .error e)
      | .ok scopedC =>
        let (w, value) := w.invoke fn
        let tgt := scopedC.getD self
        let w := w.setValue tgt key value
        let w := match alookup key cs.onDestroyHooks with
          | some hook => w.pushHook tgt (.callFn hook value)
          | none => w
        let w := if value.disposable then w.pushHook tgt (.disposeValue value) else w
        (w, .ok value)
    | none =>
    match cs.parent with
    | some p => getImpl decls fuel w p invocation key
    | none =>
    match alookup key decls.injects with
    | some tokens =>
      autoConstruct decls (fun w tk => getImpl decls fuel w invocation invocation tk)
        fuel w self invocation key tokens
    | none => (w, .error (.undefinedKey key))

end Container

/-- `Container.get(key)`: `this.#get(key, this)`. -/
def Container.get (decls : Decls) (fuel : Nat) (w : World) (c : Nat) (key : Nat) :
    World × Except Err Val :=
  Container.getImpl decls fuel w c c key

/-- The provider argument of `Container.register`: which of the three
definition kinds are present, plus the optional `onDestroy` hook and
`scope` tag. -/
structure Provider where
  value : Option Val := none
  resolver : Option Fn := none
  generator : Option Fn := none
  onDestroy : Option Nat := none
  scope : Option Nat := none
deriving DecidableEq, Repr

/-- The typed overloads of `register` require exactly one of the three
definition kinds; this captures "holds any provider". -/
def Provider.isProvider (p : Provider) : Bool :=
  p.value.isSome || p.resolver.isSome || p.generator.isSome

/-- Whether `key` has a provider of any kind on container `c`
(the duplicate-registration test of `Container.register`). -/
def hasProvider (w : World) (c : Nat) (key : Nat) : Bool :=
  (alookup key (w.cont c).generators).isSome ||
  (alookup key (w.cont c).resolvers).isSome ||
  (alookup key (w.cont c).values).isSome

/-- `Container.register(key, provider)`: reject a duplicate key, then fill
the tables; a successful call returns `this` (the container id). -/
def Container.register (w : World) (c : Nat) (key : Nat) (p : Provider) :
    World × Except Err Nat :=
  if hasProvider w c key then
    (w, .error (.duplicateKey key))
  else
    let w := match p.value with
      | some v =>
        let w := w.setValue c key v
        match p.onDestroy with
        | some hook => w.pushHook c (.callFn hook v)
        | none => w
      | none => w
    let w := match p.resolver with
      | some fn => w.modifyCont c fun s => { s with resolvers := aset key fn s.resolvers }
      | none => w
    let w := match p.generator with
      | some fn => w.modifyCont c fun s => { s with generators := aset key fn s.generators }
      | none => w
    let w := match p.onDestroy with
      | some hook => w.modifyCont c fun s =>
          { s with onDestroyHooks := aset key hook s.onDestroyHooks }
      | none => w
    let w := match p.scope with
      | some s' =>
        if p.resolver.isSome || p.generator.isSome then
          w.modifyCont c fun s => { s with scopes := aset key s' s.scopes }
        else w
      | none => w
    (w, .ok c)

/-- The duplicate-scope walk of the `Container` constructor: does `scope`
appear as the own scope tag of any node in the parent chain? -/
def scopeInChain (w : World) : Nat → Option Nat → Nat → Except Err Bool
  | 0, _, _ => .error .fuelExhausted
  | _ + 1, none, _ => .ok false
  | fuel + 1, some c, s =>
    if (w.cont c).scope = some s then .ok true
    else scopeInChain w fuel (w.cont c).parent s

/-- `new Container(parentOrConfig)`: check scope uniqueness along the
parent's ancestry, then create the container and register its disposal
with the parent.  Returns the new container's id. -/
def Container.mk (w : World) (fuel : Nat) (parent : Option Nat) (scope : Option Nat) :
    World × Except Err Nat :=
  let go : World × Except Err Nat :=
    let id := w.containers.length
    let w := { w with containers :=
      w.containers ++ [{ parent := parent, scope := scope : ContainerState }] }
    let w := match parent with
      | some p => w.pushHook p (.disposeChild id)
      | none => w
    (w, .ok id)
  match scope with
  | some s =>
    match scopeInChain w fuel parent s with
    | .error e => (w, .error e)
    | .ok true => (w, .error (.duplicateScope s))
    | .ok false => go
  | none => go

theorem World.cont_of_le (w : World) (c : Nat) (h : w.containers.length ≤ c) :
    w.cont c = default := by
  simp [World.cont, List.getElem?_eq_none h]

theorem World.cont_modifyCont (w : World) (c c' : Nat) (f : ContainerState → ContainerState) :
    (w.modifyCont c f).cont c' =
      if c' = c ∧ c < w.containers.length then f (w.cont c) else w.cont c' := by
  simp only [World.modifyCont, World.cont, List.get?_eq_getElem?, List.getElem?_set]
  rcases eq_or_ne c c' with rfl | hne
  · by_cases hlen : c < w.containers.length
    · simp [hlen]
    · simp [hlen, List.getElem?_eq_none (by omega : w.containers.length ≤ c)]
  · simp [hne, hne.symm]

theorem World.length_modifyCont (w : World) (c : Nat) (f : ContainerState → ContainerState) :
    (w.modifyCont c f).containers.length = w.containers.length := by
  simp [World.modifyCont]

/-- Agreement of two container states on every field that `get` and
`register` consult or update: everything except the disposed flag and the
disposal-hook list. -/
structure ContainerState.CoreEq (a b : ContainerState) : Prop where
  values : a.values = b.values
  resolvers : a.resolvers = b.resolvers
  generators : a.generators = b.generators
  onDestroyHooks : a.onDestroyHooks = b.onDestroyHooks
  scopes : a.scopes = b.scopes
  creating : a.creating = b.creating
  parent : a.parent = b.parent
  scope : a.scope = b.scope

/-- Agreement of two worlds on everything except disposed flags and
disposal-hook lists. -/
structure World.CoreEq (w₁ w₂ : World) : Prop where
  length : w₁.containers.length = w₂.containers.length
  cont : ∀ c, (w₁.cont c).CoreEq (w₂.cont c)
  fresh : w₁.fresh = w₂.fresh
  calls : w₁.calls = w₂.calls

theorem ContainerState.stateCoreEqRefl (a : ContainerState) : a.CoreEq a :=
  ⟨rfl, rfl, rfl, rfl, rfl, rfl, rfl, rfl⟩

theorem ContainerState.stateCoreEqSymm {a b : ContainerState} (h : a.CoreEq b) : b.CoreEq a :=
  ⟨h.values.symm, h.resolvers.symm, h.generators.symm, h.onDestroyHooks.symm,
   h.scopes.symm, h.creating.symm, h.parent.symm, h.scope.symm⟩

theorem ContainerState.stateCoreEqTrans {a b c : ContainerState}
    (h₁ : a.CoreEq b) (h₂ : b.CoreEq c) : a.CoreEq c :=
  ⟨h₁.values.trans h₂.values, h₁.resolvers.trans h₂.resolvers,
   h₁.generators.trans h₂.generators, h₁.onDestroyHooks.trans h₂.onDestroyHooks,
   h₁.scopes.trans h₂.scopes, h₁.creating.trans h₂.creating,
   h₁.parent.trans h₂.parent, h₁.scope.trans h₂.scope⟩

theorem World.worldCoreEqRefl (w : World) : w.CoreEq w :=
  ⟨rfl, fun _ => ContainerState.stateCoreEqRefl _, rfl, rfl⟩

theorem World.worldCoreEqSymm {w₁ w₂ : World} (h : w₁.CoreEq w₂) : w₂.CoreEq w₁ :=
  ⟨h.length.symm, fun c => ContainerState.stateCoreEqSymm (h.cont c), h.fresh.symm, h.calls.symm⟩

theorem World.worldCoreEqTrans {w₁ w₂ w₃ : World} (h₁ : w₁.CoreEq w₂) (h₂ : w₂.CoreEq w₃) :
    w₁.CoreEq w₃ :=
  ⟨h₁.length.trans h₂.length, fun c => ContainerState.stateCoreEqTrans (h₁.cont c) (h₂.cont c),
   h₁.fresh.trans h₂.fresh, h₁.calls.trans h₂.calls⟩

/-- A container update that does not touch the core fields yields a
core-equal world. -/
theorem World.coreEq_modifyCont_self (w : World) (c : Nat)
    (f : ContainerState → ContainerState) (hf : ∀ s, (f s).CoreEq s) :
    (w.modifyCont c f).CoreEq w := by
  refine ⟨World.length_modifyCont w c f, fun c' => ?_, rfl, rfl⟩
  rw [World.cont_modifyCont]
  split
  · next hcond =>
    rw [hcond.1]
    exact hf _
  · exact ContainerState.stateCoreEqRefl _

/-- The same core-respecting container update applied to core-equal
worlds yields core-equal worlds. -/
theorem World.coreEq_modifyCont_congr {w₁ w₂ : World} (h : w₁.CoreEq w₂) (c : Nat)
    (f : ContainerState → ContainerState)
    (hf : ∀ s₁ s₂, s₁.CoreEq s₂ → (f s₁).CoreEq (f s₂)) :
    (w₁.modifyCont c f).CoreEq (w₂.modifyCont c f) := by
  refine ⟨by rw [World.length_modifyCont, World.length_modifyCont, h.length],
    fun c' => ?_, h.fresh, h.calls⟩
  rw [World.cont_modifyCont, World.cont_modifyCont, h.length]
  by_cases hcond : c' = c ∧ c < w₂.containers.length
  · rw [if_pos hcond, if_pos hcond]
    exact hf _ _ (h.cont c)
  · rw [if_neg hcond, if_neg hcond]
    exact h.cont c'

theorem coreEq_pushHook_self (w : World) (c : Nat) (hk : Hook) :
    (w.pushHook c hk).CoreEq w :=
  World.coreEq_modifyCont_self w c _ fun _ => ⟨rfl, rfl, rfl, rfl, rfl, rfl, rfl, rfl⟩

theorem coreEq_pushHook {w₁ w₂ : World} (h : w₁.CoreEq w₂) (c : Nat) (hk : Hook) :
    (w₁.pushHook c hk).CoreEq (w₂.pushHook c hk) :=
  World.worldCoreEqTrans (World.worldCoreEqTrans (coreEq_pushHook_self w₁ c hk) h)
    (World.worldCoreEqSymm (coreEq_pushHook_self w₂ c hk))

theorem coreEq_setValue {w₁ w₂ : World} (h : w₁.CoreEq w₂) (c k : Nat) (v : Val) :
    (w₁.setValue c k v).CoreEq (w₂.setValue c k v) :=
  World.coreEq_modifyCont_congr h c _ fun s₁ s₂ hs =>
    ⟨by rw [hs.values], hs.resolvers, hs.generators, hs.onDestroyHooks, hs.scopes,
     hs.creating, hs.parent, hs.scope⟩

theorem coreEq_pushCreating {w₁ w₂ : World} (h : w₁.CoreEq w₂) (c : Nat) (fr : Frame) :
    (w₁.pushCreating c fr).CoreEq (w₂.pushCreating c fr) :=
  World.coreEq_modifyCont_congr h c _ fun s₁ s₂ hs =>
    ⟨hs.values, hs.resolvers, hs.generators, hs.onDestroyHooks, hs.scopes,
     by rw [hs.creating], hs.parent, hs.scope⟩

theorem coreEq_popCreating {w₁ w₂ : World} (h : w₁.CoreEq w₂) (c : Nat) :
    (w₁.popCreating c).CoreEq (w₂.popCreating c) :=
  World.coreEq_modifyCont_congr h c _ fun s₁ s₂ hs =>
    ⟨hs.values, hs.resolvers, hs.generators, hs.onDestroyHooks, hs.scopes,
     by rw [hs.creating], hs.parent, hs.scope⟩

theorem coreEq_clearCreating {w₁ w₂ : World} (h : w₁.CoreEq w₂) (c : Nat) :
    (w₁.clearCreating c).CoreEq (w₂.clearCreating c) :=
  World.coreEq_modifyCont_congr h c _ fun _ _ hs =>
    ⟨hs.values, hs.resolvers, hs.generators, hs.onDestroyHooks, hs.scopes,
     rfl, hs.parent, hs.scope⟩

theorem coreEq_setLastCreatingTarget {w₁ w₂ : World} (h : w₁.CoreEq w₂) (c k : Nat) :
    (w₁.setLastCreatingTarget c k).CoreEq (w₂.setLastCreatingTarget c k) :=
  World.coreEq_modifyCont_congr h c _ fun s₁ s₂ hs =>
    ⟨hs.values, hs.resolvers, hs.generators, hs.onDestroyHooks, hs.scopes,
     by rw [hs.creating], hs.parent, hs.scope⟩

theorem scopedContainer_congr {w₁ w₂ : World} (h : w₁.CoreEq w₂) :
    ∀ fuel copt s, Container.scopedContainer w₁ fuel copt s =
      Container.scopedContainer w₂ fuel copt s := by
  intro fuel
  induction fuel with
  | zero => intro copt s; rfl
  | succ fuel ih =>
    intro copt s
    cases copt with
    | none => rfl
    | some c =>
      simp only [Container.scopedContainer]
      rw [(h.cont c).scope, (h.cont c).parent]
      by_cases hsc : (w₂.cont c).scope = some s
      · rw [if_pos hsc, if_pos hsc]
      · rw [if_neg hsc, if_neg hsc, ih]

theorem scopeTarget_congr {w₁ w₂ : World} (h : w₁.CoreEq w₂) (invocation : Nat) :
    ∀ sc fuel, Container.scopeTarget w₁ invocation sc fuel =
      Container.scopeTarget w₂ invocation sc fuel := by
  intro sc fuel
  cases sc with
  | none => rfl
  | some s => simp only [Container.scopeTarget, scopedContainer_congr h]

theorem coreEq_invoke {w₁ w₂ : World} (h : w₁.CoreEq w₂) (fn : Fn) :
    ((w₁.invoke fn).1).CoreEq ((w₂.invoke fn).1) ∧ (w₁.invoke fn).2 = (w₂.invoke fn).2 :=
  ⟨⟨h.length, fun c => h.cont c, by simp [World.invoke, h.fresh],
    by simp [World.invoke, h.calls]⟩,
   by simp [World.invoke, h.fresh]⟩

theorem coreEq_construct {w₁ w₂ : World} (h : w₁.CoreEq w₂) (decls : Decls) (key : Nat) :
    ((w₁.construct decls key).1).CoreEq ((w₂.construct decls key).1) ∧
      (w₁.construct decls key).2 = (w₂.construct decls key).2 :=
  ⟨⟨h.length, fun c => h.cont c, by simp [World.construct, h.fresh], h.calls⟩,
   by simp [World.construct, h.fresh]⟩

theorem hasProvider_congr {w₁ w₂ : World} (h : w₁.CoreEq w₂) (c k : Nat) :
    hasProvider w₁ c k = hasProvider w₂ c k := by
  simp [hasProvider, (h.cont c).values, (h.cont c).resolvers, (h.cont c).generators]

/-- The dependency loop computes the same results, and core-equal output
worlds, on core-equal input worlds (given the recursive call does). -/
theorem getDepsAux_congr (recur₁ recur₂ : World → Nat → World × Except Err Val)
    (hrec : ∀ w₁ w₂ k, w₁.CoreEq w₂ →
      (recur₁ w₁ k).2 = (recur₂ w₂ k).2 ∧ ((recur₁ w₁ k).1).CoreEq ((recur₂ w₂ k).1))
    (invocation target : Nat) :
    ∀ deps i args (w₁ w₂ : World), w₁.CoreEq w₂ →
      (Container.getDepsAux recur₁ invocation target w₁ deps i args).2 =
        (Container.getDepsAux recur₂ invocation target w₂ deps i args).2 ∧
      ((Container.getDepsAux recur₁ invocation target w₁ deps i args).1).CoreEq
        ((Container.getDepsAux recur₂ invocation target w₂ deps i args).1) := by
  intro deps
  induction deps with
  | nil => intro i args w₁ w₂ h; exact ⟨rfl, h⟩
  | cons d rest ih =>
    intro i args w₁ w₂ h
    simp only [Container.getDepsAux]
    have hpc := coreEq_pushCreating h invocation ⟨none, some i⟩
    have hboth := hrec _ _ d.resolve hpc
    rcases hr₁ : recur₁ (w₁.pushCreating invocation ⟨none, some i⟩) d.resolve with ⟨u₁, r₁⟩
    rcases hr₂ : recur₂ (w₂.pushCreating invocation ⟨none, some i⟩) d.resolve with ⟨u₂, r₂⟩
    rw [hr₁, hr₂] at hboth
    obtain ⟨hsnd, hfst⟩ := hboth
    simp only [Prod.snd] at hsnd
    subst hsnd
    cases r₁ with
    | ok v => exact ih (i + 1) (args ++ [v]) _ _ (coreEq_popCreating hfst invocation)
    | error err =>
      cases err <;> exact ⟨rfl, coreEq_clearCreating hfst invocation⟩

/-- Auto-construction computes the same result, and core-equal output
worlds, on core-equal input worlds. -/
theorem autoConstruct_congr (decls : Decls)
    (recur₁ recur₂ : World → Nat → World × Except Err Val)
    (hrec : ∀ w₁ w₂ k, w₁.CoreEq w₂ →
      (recur₁ w₁ k).2 = (recur₂ w₂ k).2 ∧ ((recur₁ w₁ k).1).CoreEq ((recur₂ w₂ k).1))
    (fuel self invocation key : Nat) (tokens : List DepRef) {w₁ w₂ : World}
    (h : w₁.CoreEq w₂) :
    (Container.autoConstruct decls recur₁ fuel w₁ self invocation key tokens).2 =
      (Container.autoConstruct decls recur₂ fuel w₂ self invocation key tokens).2 ∧
    ((Container.autoConstruct decls recur₁ fuel w₁ self invocation key tokens).1).CoreEq
      ((Container.autoConstruct decls recur₂ fuel w₂ self invocation key tokens).1) := by
  simp only [Container.autoConstruct]
  rw [(h.cont invocation).creating]
  by_cases hcirc :
      ((w₂.cont invocation).creating.any fun fr => fr.target = some key) = true
  · rw [if_pos hcirc, if_pos hcirc]
    exact ⟨rfl, coreEq_clearCreating h invocation⟩
  · rw [if_neg hcirc, if_neg hcirc]
    have hreg :
        ((if (w₂.cont invocation).creating.isEmpty then
            w₁.pushCreating invocation ⟨some key, none⟩
          else if ((w₂.cont invocation).creating.getLast?.bind Frame.target) = none then
            w₁.setLastCreatingTarget invocation key
          else w₁)).CoreEq
        ((if (w₂.cont invocation).creating.isEmpty then
            w₂.pushCreating invocation ⟨some key, none⟩
          else if ((w₂.cont invocation).creating.getLast?.bind Frame.target) = none then
            w₂.setLastCreatingTarget invocation key
          else w₂)) := by
      by_cases hemp : (w₂.cont invocation).creating.isEmpty
      · rw [if_pos hemp, if_pos hemp]
        exact coreEq_pushCreating h invocation ⟨some key, none⟩
      · rw [if_neg hemp, if_neg hemp]
        by_cases hlast : ((w₂.cont invocation).creating.getLast?.bind Frame.target) = none
        · rw [if_pos hlast, if_pos hlast]
          exact coreEq_setLastCreatingTarget h invocation key
        · rw [if_neg hlast, if_neg hlast]
          exact h
    have hdeps := getDepsAux_congr recur₁ recur₂ hrec invocation key tokens 0 [] _ _ hreg
    rcases hd₁ : Container.getDepsAux recur₁ invocation key
        (if (w₂.cont invocation).creating.isEmpty then
          w₁.pushCreating invocation ⟨some key, none⟩
        else if ((w₂.cont invocation).creating.getLast?.bind Frame.target) = none then
          w₁.setLastCreatingTarget invocation key
        else w₁) tokens 0 [] with ⟨u₁, r₁⟩
    rcases hd₂ : Container.getDepsAux recur₂ invocation key
        (if (w₂.cont invocation).creating.isEmpty then
          w₂.pushCreating invocation ⟨some key, none⟩
        else if ((w₂.cont invocation).creating.getLast?.bind Frame.target) = none then
          w₂.setLastCreatingTarget invocation key
        else w₂) tokens 0 [] with ⟨u₂, r₂⟩
    rw [hd₁, hd₂] at hdeps
    obtain ⟨hsnd, hu⟩ := hdeps
    have hsnd' : r₁ = r₂ := hsnd
    subst hsnd'
    have hu' : u₁.CoreEq u₂ := hu
    cases r₁ with
    | error e => exact ⟨rfl, hu'⟩
    | ok args =>
      dsimp only
      rw [scopeTarget_congr hu' invocation (alookup key decls.scopes) fuel]
      cases hst : Container.scopeTarget u₂ invocation (alookup key decls.scopes) fuel with
      | error e => exact ⟨rfl, hu'⟩
      | ok scopedC =>
        have hcon := coreEq_construct hu' decls key
        rcases hc₁ : u₁.construct decls key with ⟨x₁, v₁⟩
        rcases hc₂ : u₂.construct decls key with ⟨x₂, v₂⟩
        rw [hc₁, hc₂] at hcon
        obtain ⟨hx, hv⟩ := hcon
        have hv' : v₁ = v₂ := hv
        subst hv'
        have hx' : x₁.CoreEq x₂ := hx
        have hbase :=
          coreEq_setValue (coreEq_popCreating hx' invocation) (scopedC.getD self) key v₁
        dsimp only
        by_cases hd : v₁.disposable = true
        · rw [if_pos hd, if_pos hd]
          exact ⟨rfl, coreEq_pushHook hbase (scopedC.getD self) (.disposeValue v₁)⟩
        · rw [if_neg hd, if_neg hd]
          exact ⟨rfl, hbase⟩

/-- `Container.#get` computes the same result, and core-equal output
worlds, on core-equal input worlds: resolution never consults the
disposed flag or the disposal-hook lists. -/
theorem getImpl_congr (decls : Decls) :
    ∀ fuel (w₁ w₂ : World) self invocation k, w₁.CoreEq w₂ →
      (Container.getImpl decls fuel w₁ self invocation k).2 =
        (Container.getImpl decls fuel w₂ self invocation k).2 ∧
      ((Container.getImpl decls fuel w₁ self invocation k).1).CoreEq
        ((Container.getImpl decls fuel w₂ self invocation k).1) := by
  intro fuel
  induction fuel with
  | zero => intro w₁ w₂ self invocation k h; exact ⟨rfl, h⟩
  | succ fuel ih =>
    intro w₁ w₂ self invocation k h
    simp only [Container.getImpl]
    rw [(h.cont self).values, (h.cont self).generators, (h.cont self).resolvers,
      (h.cont self).scopes, (h.cont self).onDestroyHooks, (h.cont self).parent]
    rcases hval : alookup k (w₂.cont self).values with _ | v
    · rcases hgen : alookup k (w₂.cont self).generators with _ | fn
      · rcases hres : alookup k (w₂.cont self).resolvers with _ | fn
        · rcases hpar : (w₂.cont self).parent with _ | p
          · rcases hinj : alookup k decls.injects with _ | tokens
            · exact ⟨rfl, h⟩
            · exact autoConstruct_congr decls _ _
                (fun a b tk hh => ih a b invocation invocation tk hh)
                fuel self invocation k tokens h
          · exact ih w₁ w₂ p invocation k h
        · dsimp only
          rw [scopeTarget_congr h invocation (alookup k (w₂.cont self).scopes) fuel]
          cases hst : Container.scopeTarget w₂ invocation
              (alookup k (w₂.cont self).scopes) fuel with
          | error e => exact ⟨rfl, h⟩
          | ok scopedC =>
            dsimp only
            have hinv := coreEq_invoke h fn
            rcases hi₁ : w₁.invoke fn with ⟨x₁, v₁⟩
            rcases hi₂ : w₂.invoke fn with ⟨x₂, v₂⟩
            rw [hi₁, hi₂] at hinv
            obtain ⟨hx, hv⟩ := hinv
            have hv' : v₁ = v₂ := hv
            subst hv'
            have hx' : x₁.CoreEq x₂ := hx
            have hbase := coreEq_setValue hx' (scopedC.getD self) k v₁
            rcases hhook : alookup k (w₂.cont self).onDestroyHooks with _ | hook
            · dsimp only
              by_cases hd : v₁.disposable = true
              · rw [if_pos hd, if_pos hd]
                exact ⟨rfl, coreEq_pushHook hbase (scopedC.getD self) (.disposeValue v₁)⟩
              · rw [if_neg hd, if_neg hd]
                exact ⟨rfl, hbase⟩
            · dsimp only
              have hbase2 := coreEq_pushHook hbase (scopedC.getD self) (.callFn hook v₁)
              by_cases hd : v₁.disposable = true
              · rw [if_pos hd, if_pos hd]
                exact ⟨rfl, coreEq_pushHook hbase2 (scopedC.getD self) (.disposeValue v₁)⟩
              · rw [if_neg hd, if_neg hd]
                exact ⟨rfl, hbase2⟩
      · dsimp only
        rw [scopeTarget_congr h invocation (alookup k (w₂.cont self).scopes) fuel]
        cases hst : Container.scopeTarget w₂ invocation
            (alookup k (w₂.cont self).scopes) fuel with
        | error e => exact ⟨rfl, h⟩
        | ok scopedC =>
          dsimp only
          have hinv := coreEq_invoke h fn
          rcases hi₁ : w₁.invoke fn with ⟨x₁, v₁⟩
          rcases hi₂ : w₂.invoke fn with ⟨x₂, v₂⟩
          rw [hi₁, hi₂] at hinv
          obtain ⟨hx, hv⟩ := hinv
          have hv' : v₁ = v₂ := hv
          subst hv'
          have hx' : x₁.CoreEq x₂ := hx
          rcases hhook : alookup k (w₂.cont self).onDestroyHooks with _ | hook
          · dsimp only
            by_cases hd : v₁.disposable = true
            · rw [if_pos hd, if_pos hd]
              exact ⟨rfl, coreEq_pushHook hx' (scopedC.getD self) (.disposeValue v₁)⟩
            · rw [if_neg hd, if_neg hd]
              exact ⟨rfl, hx'⟩
          · dsimp only
            have hbase2 := coreEq_pushHook hx' (scopedC.getD self) (.callFn hook v₁)
            by_cases hd : v₁.disposable = true
            · rw [if_pos hd, if_pos hd]
              exact ⟨rfl, coreEq_pushHook hbase2 (scopedC.getD self) (.disposeValue v₁)⟩
            · rw [if_neg hd, if_neg hd]
              exact ⟨rfl, hbase2⟩
    · dsimp only
      by_cases hd : v.disposable = true
      · rw [if_pos hd, if_pos hd]
        exact ⟨rfl, coreEq_pushHook h self (.disposeValue v)⟩
      · rw [if_neg hd, if_neg hd]
        exact ⟨rfl, h⟩

/-- Scenario shared by the scoped-resolver claims: root `R` (id 0, no
scope), `P` (id 1, scope tag 7, parent `R`), `K` (id 2, parent `P`); a
resolver (function 5, non-disposable results) for key 1 (playing `Date`)
registered on `K` with scope 7. -/
def srWorld : World :=
  let w := (Container.mk {} 4 none none).1
  let w := (Container.mk w 4 (some 0) (some 7)).1
  let w := (Container.mk w 4 (some 1) none).1
  (Container.register w 2 1 { resolver := some ⟨5, false⟩, scope := some 7 }).1

/-- The world after the first `K.get(Date)` in the scenario above. -/
def srAfterFirstGet : World := (Container.get {} 4 srWorld 2 1).1

def World.setDisposed (w : World) (c : Nat) : World :=
  w.modifyCont c fun s => { s with disposed := true }

def World.clearOnDestroy (w : World) (c : Nat) : World :=
  w.modifyCont c fun s => { s with onDestroy := [] }

/-- Run a snapshot of a hook list in order, parameterized by the recursive
disposal of a child container. -/
def Container.runHooksAux (disposeRec : World → Nat → World × List Event) :
    World → List Hook → World × List Event
  | w, [] => (w, [])
  | w, h :: rest =>
    let (w, evs) := match h with
      | .disposeChild child => disposeRec w child
      | .callFn fn v => (w, [.hookCalled fn v])
      | .disposeValue v => (w, [.valueDisposed v])
    let (w, evs') := Container.runHooksAux disposeRec w rest
    (w, evs ++ evs')

/-- `Container[Symbol.dispose]()`: flag, run the accumulated hooks in
order (child-container hooks recursively dispose the child), then splice
the hook list to empty.  Returns the observable hook events in execution
order. -/
def Container.dispose : Nat → World → Nat → World × List Event
  | 0, w, _ => (w, [])
  | fuel + 1, w, c =>
    let w := w.setDisposed c
    let (w, evs) :=
      Container.runHooksAux (fun w c' => Container.dispose fuel w c') w ((w.cont c).onDestroy)
    (w.clearOnDestroy c, evs)

/-- Running disposal hooks never changes core fields (given the recursive
child disposal does not). -/
theorem runHooksAux_coreEq (disposeRec : World → Nat → World × List Event)
    (hrec : ∀ w c, ((disposeRec w c).1).CoreEq w) :
    ∀ hooks (w : World), ((Container.runHooksAux disposeRec w hooks).1).CoreEq w := by
  intro hooks
  induction hooks with
  | nil => intro w; exact World.worldCoreEqRefl w
  | cons hd rest ih =>
    intro w
    cases hd with
    | disposeChild child => exact World.worldCoreEqTrans (ih ((disposeRec w child).1)) (hrec w child)
    | callFn fn v => exact ih w
    | disposeValue v => exact ih w

/-- Disposal only flips disposed flags and empties disposal-hook lists:
every core field of every container is unchanged. -/
theorem dispose_coreEq : ∀ fuel (w : World) c, ((Container.dispose fuel w c).1).CoreEq w := by
  intro fuel
  induction fuel with
  | zero => intro w c; exact World.worldCoreEqRefl w
  | succ fuel ih =>
    intro w c
    have h₁ : ((w.setDisposed c)).CoreEq w :=
      World.coreEq_modifyCont_self w c _ fun _ => ⟨rfl, rfl, rfl, rfl, rfl, rfl, rfl, rfl⟩
    have h₂ := runHooksAux_coreEq (fun a b => Container.dispose fuel a b)
      (fun a b => ih a b) ((w.setDisposed c).cont c).onDestroy (w.setDisposed c)
    have h₃ : ((((Container.runHooksAux (fun a b => Container.dispose fuel a b)
        (w.setDisposed c) ((w.setDisposed c).cont c).onDestroy).1).clearOnDestroy c)).CoreEq
        ((Container.runHooksAux (fun a b => Container.dispose fuel a b)
          (w.setDisposed c) ((w.setDisposed c).cont c).onDestroy).1) :=
      World.coreEq_modifyCont_self _ c _ fun _ => ⟨rfl, rfl, rfl, rfl, rfl, rfl, rfl, rfl⟩
    exact World.worldCoreEqTrans (World.worldCoreEqTrans h₃ h₂) h₁

theorem register_congr {w₁ w₂ : World} (h : w₁.CoreEq w₂) (c k : Nat) (p : Provider) :
    (Container.register w₁ c k p).2 = (Container.register w₂ c k p).2 := by
  simp only [Container.register, hasProvider_congr h c k]
  by_cases hp : hasProvider w₂ c k = true
  · rw [if_pos hp, if_pos hp]
  · rw [if_neg hp, if_neg hp]

/-- Scenario for the declared dependency cycle: one container (id 0)
holding a value for key 13; classes `A` = 10, `B` = 11, `C` = 12 declared
with `@Inject`: `A`'s dependencies are `[13, B]` (so `B` sits at argument
index 1), `B`'s are `[C]`, `C`'s are `[A]`. -/
def cycleDecls : Decls :=
  { injects := [(10, [.direct 13, .deferred 11]), (11, [.deferred 12]), (12, [.direct 10])] }

def cycleWorld : World :=
  (Container.register (Container.mk {} 4 none none).1 0 13 { value := some ⟨99, false⟩ }).1

/-- Scenario for the missing-dependency claim: class `T` = 20 declared
with dependencies `[A, B]` = `[21, 22]`; a resolver (function 6) for `A`
registered on the parent (id 0); nothing anywhere for `B`; `get(T)` is
issued on the child (id 1). -/
def mdDecls : Decls := { injects := [(20, [.direct 21, .direct 22])] }

def mdWorld : World :=
  let w := (Container.mk {} 4 none none).1
  let w := (Container.mk w 4 (some 0) none).1
  (Container.register w 0 21 { resolver := some ⟨6, false⟩ }).1

/-- Scenario for the disposal claims: a parent (id 0) with a value
provider carrying an `onDestroy` hook (function 50), then a child (id 1)
registered under it, itself holding a value provider with an `onDestroy`
hook (function 51). -/
def dispWorld : World :=
  let w := (Container.mk {} 4 none none).1
  let w := (Container.register w 0 1 { value := some ⟨30, false⟩, onDestroy := some 50 }).1
  let w := (Container.mk w 4 (some 0) none).1
  (Container.register w 1 2 { value := some ⟨31, false⟩, onDestroy := some 51 }).1

/-- Scenario for the cache-hit disposal-hook claim: one container (id 0)
holding a value provider whose value (object 7) is disposable; the value
is fetched three times. -/
def disposableValWorld : World :=
  (Container.register (Container.mk {} 4 none none).1 0 1 { value := some ⟨7, true⟩ }).1

def disposableValAfterGets : World :=
  (Container.get {} 4 (Container.get {} 4 (Container.get {} 4 disposableValWorld 0 1).1 0 1).1 0 1).1

theorem alookup_aset_self (k : Nat) (v : α) (l : List (Nat × α)) :
    alookup k (aset k v l) = some v := by
  induction l with
  | nil => simp [aset, alookup]
  | cons hd tl ih =>
    by_cases h : hd.1 = k
    · simp [aset, alookup, h]
    · simpa [aset, alookup, h] using ih

theorem World.cont_pushHook (w : World) (c c' : Nat) (h : Hook) (hne : c' ≠ c) :
    (w.pushHook c h).cont c' = w.cont c' := by
  rw [World.pushHook, World.cont_modifyCont]
  simp [hne]

theorem cont_clearOnDestroy_self (w : World) (c : Nat) :
    ((w.clearOnDestroy c).cont c).onDestroy = [] := by
  rw [World.clearOnDestroy, World.cont_modifyCont]
  split
  · rfl
  · next hcond =>
    rw [World.cont_of_le w c (by omega)]
    rfl

theorem cont_setDisposed_onDestroy (w : World) (c c' : Nat) :
    ((w.setDisposed c).cont c').onDestroy = (w.cont c').onDestroy := by
  rw [World.setDisposed, World.cont_modifyCont]
  split
  · next hcond => rw [hcond.1]
  · rfl

/-- After a (sufficiently fuelled) disposal, the container's hook list is
drained to empty. -/
theorem dispose_drains (f : Nat) (w : World) (c : Nat) :
    ((Container.dispose (f + 1) w c).1.cont c).onDestroy = [] := by
  simp only [Container.dispose]
  rcases hrun : Container.runHooksAux (fun w c' => Container.dispose f w c')
      (w.setDisposed c) ((w.setDisposed c).cont c).onDestroy with ⟨w', evs⟩
  simp [hrun, cont_clearOnDestroy_self]

/-- Disposing a container whose hook list is empty invokes no hook. -/
theorem dispose_of_no_hooks (f : Nat) (w : World) (c : Nat)
    (h : (w.cont c).onDestroy = []) : (Container.dispose f w c).2 = [] := by
  cases f with
  | zero => rfl
  | succ f =>
    simp only [Container.dispose]
    rw [cont_setDisposed_onDestroy, h]
    rfl

/-- A successful registration of a provider (of any of the three kinds)
leaves the key holding a provider on the container. -/
theorem register_fills (w : World) (c k : Nat) (p : Provider)
    (hc : c < w.containers.length) (hp : hasProvider w c k = false)
    (hip : p.isProvider = true) :
    hasProvider (Container.register w c k p).1 c k = true := by
  rcases p with ⟨pv, pr, pg, pd, ps⟩
  simp only [Provider.isProvider] at hip
  simp only [Container.register, hp, Bool.false_eq_true, if_false]
  cases pv <;> cases pr <;> cases pg <;> cases pd <;> cases ps <;>
    simp_all [hasProvider, World.setValue, World.pushHook, World.cont_modifyCont,
      World.length_modifyCont, alookup_aset_self, hc]

/-- Well-formedness of the container heap: parent references point to
earlier-constructed containers, as `Container.mk` guarantees (a parent
must exist before its child). -/
def World.wf (w : World) : Prop :=
  ∀ c p, (w.cont c).parent = some p → p < c

/-- Executable check implying `World.wf`, for concrete worlds. -/
def World.wfB (w : World) : Bool :=
  (List.range w.containers.length).all fun c =>
    (w.cont c).parent.all fun p => decide (p < c)

theorem World.wf_of_wfB (w : World) (h : w.wfB = true) : w.wf := by
  intro c p hp
  by_cases hc : c < w.containers.length
  · have hall := (List.all_eq_true.mp h) c (List.mem_range.mpr hc)
    rw [hp] at hall
    simpa using hall
  · rw [World.cont_of_le w c (by omega)] at hp
    have hnone : (default : ContainerState).parent = none := rfl
    rw [hnone] at hp
    cases hp

/-- The ancestry chain of a container — the container itself, its parent,
its parent's parent, and so on — bounded by fuel. -/
def World.ancestors (w : World) : Nat → Nat → List Nat
  | 0, c => [c]
  | fuel + 1, c =>
    c :: (match (w.cont c).parent with
          | some p => w.ancestors fuel p
          | none => [])

theorem scopedContainer_ne_undefinedKey (w : World) :
    ∀ fuel copt s k, Container.scopedContainer w fuel copt s ≠ .error (.undefinedKey k) := by
  intro fuel
  induction fuel with
  | zero => intro copt s k; simp [Container.scopedContainer]
  | succ fuel ih =>
    intro copt s k
    cases copt with
    | none => simp [Container.scopedContainer]
    | some c =>
      simp only [Container.scopedContainer]
      split
      · simp
      · exact ih _ s k

theorem scopeTarget_ne_undefinedKey (w : World) (invocation : Nat) (sc : Option Nat)
    (fuel k : Nat) :
    Container.scopeTarget w invocation sc fuel ≠ .error (.undefinedKey k) := by
  cases sc with
  | none => simp [Container.scopeTarget]
  | some s =>
    simp only [Container.scopeTarget]
    cases hsc : Container.scopedContainer w fuel (some invocation) s with
    | ok c => simp [Except.map]
    | error e =>
      have hne := scopedContainer_ne_undefinedKey w fuel (some invocation) s k
      rw [hsc] at hne
      simp only [Except.map]
      intro h
      rw [Except.error.injEq] at h
      exact hne (by rw [h])

theorem getDepsAux_ne_undefinedKey (recur : World → Nat → World × Except Err Val)
    (invocation target : Nat) :
    ∀ deps w i args k,
      (Container.getDepsAux recur invocation target w deps i args).2 ≠
        .error (.undefinedKey k) := by
  intro deps
  induction deps with
  | nil => intro w i args k; simp [Container.getDepsAux]
  | cons d rest ih =>
    intro w i args k
    simp only [Container.getDepsAux]
    rcases hr : recur (w.pushCreating invocation ⟨none, some i⟩) d.resolve with ⟨w', res⟩
    cases res with
    | ok v => simpa using ih _ _ _ k
    | error err => cases err <;> simp

/-- Auto-construction never fails with the undefined-key condition: a
nested undefined key is re-signalled as missing-dependency, and every
other path yields a value or a different condition. -/
theorem autoConstruct_ne_undefinedKey (decls : Decls)
    (recur : World → Nat → World × Except Err Val) (fuel : Nat) (w : World)
    (self invocation key k : Nat) (tokens : List DepRef) :
    (Container.autoConstruct decls recur fuel w self invocation key tokens).2 ≠
      .error (.undefinedKey k) := by
  simp only [Container.autoConstruct]
  split
  · simp
  · split
    · next w2 e heq =>
      intro h
      rw [Prod.snd, Except.error.injEq] at h
      exact getDepsAux_ne_undefinedKey recur invocation key tokens _ 0 [] k
        (by rw [heq, h])
    · next w2 args heq =>
      split
      · next e heq2 =>
        intro h
        rw [Prod.snd, Except.error.injEq] at h
        exact scopeTarget_ne_undefinedKey w2 invocation (alookup key decls.scopes) fuel k
          (by rw [heq2, h])
      · next scopedC heq2 => simp

/-- The resolution walk fails with the undefined-key condition for `k`
exactly when no container in the searched ancestry holds any provider for
`k` and no injection declaration exists for `k`. -/
theorem getImpl_undefinedKey_iff (decls : Decls) (w : World) (hwf : w.wf) :
    ∀ fuel self invocation k, self < fuel →
      ((Container.getImpl decls fuel w self invocation k).2 = .error (.undefinedKey k) ↔
        (∀ a ∈ w.ancestors fuel self, hasProvider w a k = false) ∧
        alookup k decls.injects = none) := by
  intro fuel
  induction fuel with
  | zero => intro self invocation k h; omega
  | succ fuel ih =>
    intro self invocation k _hlt
    have hmem : self ∈ w.ancestors (fuel + 1) self := by
      simp [World.ancestors]
    simp only [Container.getImpl]
    rcases hval : alookup k (w.cont self).values with _ | v
    · rcases hgen : alookup k (w.cont self).generators with _ | fn
      · rcases hres : alookup k (w.cont self).resolvers with _ | fn
        · rcases hpar : (w.cont self).parent with _ | p
          · rcases hinj : alookup k decls.injects with _ | tokens
            · apply iff_of_true rfl
              refine ⟨fun a ha => ?_, rfl⟩
              have hsing : w.ancestors (fuel + 1) self = [self] := by
                simp [World.ancestors, hpar]
              rw [hsing] at ha
              simp at ha
              subst ha
              simp [hasProvider, hval, hgen, hres]
            · apply iff_of_false
              · exact autoConstruct_ne_undefinedKey decls _ fuel w self invocation k k tokens
              · rintro ⟨-, hnone⟩
                cases hnone
          · have hplt : p < fuel := by
              have := hwf self p hpar
              omega
            have hanc : w.ancestors (fuel + 1) self = self :: w.ancestors fuel p := by
              simp [World.ancestors, hpar]
            rw [ih p invocation k hplt, hanc]
            simp [List.forall_mem_cons, hasProvider, hval, hgen, hres]
        · apply iff_of_false
          · cases hst : Container.scopeTarget w invocation (alookup k (w.cont self).scopes)
                fuel with
            | error e =>
              intro h
              rw [Prod.snd, Except.error.injEq] at h
              exact scopeTarget_ne_undefinedKey w invocation _ fuel k (by rw [hst, h])
            | ok sc => simp
          · rintro ⟨hall, -⟩
            have hfalse := hall self hmem
            simp [hasProvider, hres] at hfalse
      · apply iff_of_false
        · cases hst : Container.scopeTarget w invocation (alookup k (w.cont self).scopes)
              fuel with
          | error e =>
            intro h
            rw [Prod.snd, Except.error.injEq] at h
            exact scopeTarget_ne_undefinedKey w invocation _ fuel k (by rw [hst, h])
          | ok sc => simp
        · rintro ⟨hall, -⟩
          have hfalse := hall self hmem
          simp [hasProvider, hgen] at hfalse
    · apply iff_of_false
      · simp
      · rintro ⟨hall, -⟩
        have hfalse := hall self hmem
        simp [hasProvider, hval] at hfalse

/-- The only failure `scopeInChain` itself can produce is fuel
exhaustion. -/
theorem scopeInChain_error_eq (w : World) :
    ∀ fuel copt s e, scopeInChain w fuel copt s = .error e →
      e = .fuelExhausted := by
  intro fuel
  induction fuel with
  | zero =>
    intro copt s e h
    simp only [scopeInChain, Except.error.injEq] at h
    exact h.symm
  | succ fuel ih =>
    intro copt s e h
    cases copt with
    | none => simp [scopeInChain] at h
    | some c =>
      simp only [scopeInChain] at h
      split at h
      · cases h
      · exact ih _ s e h

/-- The duplicate-scope walk of the constructor finds the tag exactly when
some node of the supplied parent's ancestry (the parent included) carries
it as its own scope tag. -/
theorem scopeInChain_ok_true_iff (w : World) (hwf : w.wf) :
    ∀ fuel p s, p < fuel →
      (scopeInChain w fuel (some p) s = .ok true ↔
        ∃ a ∈ w.ancestors fuel p, (w.cont a).scope = some s) := by
  intro fuel
  induction fuel with
  | zero => intro p s h; omega
  | succ fuel ih =>
    intro p s _hlt
    simp only [scopeInChain]
    by_cases hscope : (w.cont p).scope = some s
    · apply iff_of_true
      · rw [if_pos hscope]
      · exact ⟨p, by simp [World.ancestors], hscope⟩
    · rw [if_neg hscope]
      rcases hpar : (w.cont p).parent with _ | q
      · have hanc : w.ancestors (fuel + 1) p = [p] := by
          simp [World.ancestors, hpar]
        rw [hanc]
        apply iff_of_false
        · cases fuel <;> simp [scopeInChain]
        · rintro ⟨a, ha, hsc⟩
          simp at ha
          subst ha
          exact hscope hsc
      · have hq : q < fuel := by
          have := hwf p q hpar
          omega
        have hanc : w.ancestors (fuel + 1) p = p :: w.ancestors fuel q := by
          simp [World.ancestors, hpar]
        rw [hanc, ih q s hq]
        constructor
        · rintro ⟨a, ha, hsc⟩
          exact ⟨a, List.mem_cons_of_mem p ha, hsc⟩
        · rintro ⟨a, ha, hsc⟩
          rcases List.mem_cons.mp ha with rfl | ha
          · exact absurd hsc hscope
          · exact ⟨a, ha, hsc⟩

/-- A cache-hit of the values table on the serving container returns the
cached value, and — when the value is disposable — pushes one more
disposal callback for it onto that container's hook list. -/
theorem getImpl_values_hit (decls : Decls) (fuel : Nat) (w : World)
    (self invocation k : Nat) (v : Val)
    (h : alookup k ((w.cont self).values) = some v) (hv : v.disposable = true) :
    Container.getImpl decls (fuel + 1) w self invocation k =
      (w.pushHook self (.disposeValue v), .ok v) := by
  simp only [Container.getImpl]
  rw [h]
  simp [hv]

/-- C1 (code evaluation at the failing input): in the hierarchy
`R ← P(scope 7) ← K` with a resolver for key 1 registered on `K` with
scope 7, the first `K.get` invokes the resolver (call log `[5]`) and the
result is cached on `P`; but a second `K.get` on the same (container,
key) pair hits `K`'s resolver entry again before any cache: the resolver
is invoked a second time (call log `[5, 5]`) and a distinct fresh object
is returned, contradicting the claim that every subsequent `get` returns
the identical cached result without invoking the function again. -/
theorem c1_scoped_resolver_reinvoked_on_second_get :
    (Container.get {} 4 srWorld 2 1).2 = .ok ⟨0, false⟩ ∧
    srAfterFirstGet.calls = [5] ∧
    alookup 1 ((srAfterFirstGet.cont 1).values) = some ⟨0, false⟩ ∧
    (Container.get {} 4 srAfterFirstGet 2 1).2 = .ok ⟨1, false⟩ ∧
    (Container.get {} 4 srAfterFirstGet 2 1).1.calls = [5, 5] := by
  decide

/-- C2: in the hierarchy `R` (id 0, no scope) ← `P` (id 1, scope tag 7) ←
`K` (id 2), with a resolver for key 1 (`Date`) registered on `K` with
scope 7: `K.get` and a following `P.get` return the identical instance
(object 0); the instance is cached on `P` — the scope-matching container
in the invocation container's ancestry — and not on `K`; and `R.get`
fails with the undefined-key condition. -/
theorem c2_scoped_resolver_cached_on_scope_container :
    (Container.get {} 4 srWorld 2 1).2 = .ok ⟨0, false⟩ ∧
    (Container.get {} 4 srAfterFirstGet 1 1).2 = .ok ⟨0, false⟩ ∧
    alookup 1 ((srAfterFirstGet.cont 1).values) = some ⟨0, false⟩ ∧
    alookup 1 ((srAfterFirstGet.cont 2).values) = none ∧
    (Container.get {} 4 srAfterFirstGet 0 1).2 = .error (.undefinedKey 1) := by
  decide

/-- C3: with the declared cycle `A → B → C → A` (`B` at `A`'s argument
index 1, `C` at `B`'s index 0, `A` at `C`'s index 0) and no providers for
these keys, `get(A)` fails with the circular-dependency condition whose
chain is exactly `[{target:A}, {index:1,target:B}, {index:0,target:C},
{index:0,target:A}]` (length 4), and the shared in-progress frame list is
cleared before the error propagates. -/
theorem c3_circular_dependency_chain :
    (Container.get cycleDecls 20 cycleWorld 0 10).2 =
      .error (.circularDependency
        [⟨some 10, none⟩, ⟨some 11, some 1⟩, ⟨some 12, some 0⟩, ⟨some 10, some 0⟩] 10) ∧
    [Frame.mk (some 10) none, ⟨some 11, some 1⟩, ⟨some 12, some 0⟩,
      ⟨some 10, some 0⟩].length = 4 ∧
    ((Container.get cycleDecls 20 cycleWorld 0 10).1.cont 0).creating = [] := by
  decide

/-- C4: auto-constructing `T` = 20 with declared dependencies
`[A, B]` = `[21, 22]`, where `A` has a resolver (function 6) on the parent
and `B` is undefined everywhere: `get(T)` on the child resolves `A` first
(falling back through the ancestry; call log `[6]`), then fails on `B`
with the missing-dependency condition carrying dependency 22, target 20
and index 1, while `A`'s caching side effect on the parent remains in
place (and the in-progress list is cleared). -/
theorem c4_missing_dependency_after_first_resolved :
    (Container.get mdDecls 20 mdWorld 1 20).2 = .error (.missingDependency 22 20 1) ∧
    (Container.get mdDecls 20 mdWorld 1 20).1.calls = [6] ∧
    alookup 21 (((Container.get mdDecls 20 mdWorld 1 20).1.cont 0).values) =
      some ⟨0, false⟩ ∧
    ((Container.get mdDecls 20 mdWorld 1 20).1.cont 1).creating = [] := by
  decide

/-- C8: disposing the parent of `dispWorld` runs its accumulated hooks in
registration order — the parent's own registration-time hook (function
50) first, then, through the child-disposal callback pushed at child
construction, the child's hook (function 51) — flags the child disposed
and drains the parent's hook list, so a second dispose invokes no hook;
and, in general, disposing any container a second time emits no events
because the first disposal drained the hook list. -/
theorem c8_dispose_order_propagation_idempotence :
    ((Container.dispose 4 dispWorld 0).2 =
      [.hookCalled 50 ⟨30, false⟩, .hookCalled 51 ⟨31, false⟩] ∧
     ((Container.dispose 4 dispWorld 0).1.cont 1).disposed = true ∧
     ((Container.dispose 4 dispWorld 0).1.cont 0).onDestroy = [] ∧
     (Container.dispose 4 (Container.dispose 4 dispWorld 0).1 0).2 = []) ∧
    ∀ w c f f', (Container.dispose f' (Container.dispose (f + 1) w c).1 c).2 = [] :=
  ⟨by decide, fun w c f f' => dispose_of_no_hooks f' _ c (dispose_drains f w c)⟩

/-- C9: every cache-hit `get` of a key whose cached value exposes
`Symbol.dispose` pushes one additional disposal callback for that value
onto the serving container's hook list (first conjunct, for every world);
hence after three gets of the disposable value in `disposableValWorld`
the hook list holds three callbacks and a single later disposal invokes
the value's `Symbol.dispose` three times — once per preceding cache-hit
`get` rather than at most once. -/
theorem c9_cache_hit_pushes_dispose_hook_each_time :
    (∀ decls fuel w self invocation k v,
        alookup k ((w.cont self).values) = some v → v.disposable = true →
        Container.getImpl decls (fuel + 1) w self invocation k =
          (w.pushHook self (.disposeValue v), .ok v)) ∧
    (disposableValAfterGets.cont 0).onDestroy =
      [.disposeValue ⟨7, true⟩, .disposeValue ⟨7, true⟩, .disposeValue ⟨7, true⟩] ∧
    (Container.dispose 4 disposableValAfterGets 0).2 =
      [.valueDisposed ⟨7, true⟩, .valueDisposed ⟨7, true⟩, .valueDisposed ⟨7, true⟩] :=
  ⟨fun decls fuel w self invocation k v h hv =>
      getImpl_values_hit decls fuel w self invocation k v h hv,
   by decide, by decide⟩

/-- A fresh root container, and two providers of different kinds, for the
registration claims. -/
def regW : World := (Container.mk {} 4 none none).1

def pVal : Provider := { value := some ⟨3, false⟩ }

def pGen : Provider := { generator := some ⟨9, false⟩ }

/-- C6: a successful `register` of any provider kind leaves the key
holding a provider (first conjunct), and whenever a key already holds any
provider on a container, a further `register` of any kind on that same
container fails with the duplicate-key condition leaving the world
unchanged (second conjunct) — so every combination of first and second
provider kinds is rejected; while on any container where the key holds no
provider, `register` succeeds and returns the container itself (third
conjunct). -/
theorem c6_register_duplicate_key_combinations :
    (∀ w c k p w', c < w.containers.length → p.isProvider = true →
        Container.register w c k p = (w', .ok c) → hasProvider w' c k = true) ∧
    (∀ w c k p, hasProvider w c k = true →
        Container.register w c k p = (w, .error (.duplicateKey k))) ∧
    (∀ w c k p, hasProvider w c k = false →
        (Container.register w c k p).2 = .ok c) := by
  refine ⟨fun w c k p w' hc hip hreg => ?_, fun w c k p hp => ?_, fun w c k p hp => ?_⟩
  · by_cases hp : hasProvider w c k
    · simp [Container.register, hp] at hreg
    · have hw : w' = (Container.register w c k p).1 := by rw [hreg]
      rw [hw]
      exact register_fills w c k p hc (by simpa using hp) hip
  · simp [Container.register, hp]
  · simp [Container.register, hp]

/-- Witness for C6: each conjunct applied to the concrete fresh container,
with the hypotheses discharged there. -/
theorem c6_witness :
    hasProvider (Container.register regW 0 1 pVal).1 0 1 = true ∧
    Container.register (Container.register regW 0 1 pVal).1 0 1 pGen =
      ((Container.register regW 0 1 pVal).1, .error (.duplicateKey 1)) ∧
    (Container.register regW 0 1 pGen).2 = .ok 0 :=
  ⟨c6_register_duplicate_key_combinations.1 regW 0 1 pVal _ (by decide) (by decide)
     (by decide),
   c6_register_duplicate_key_combinations.2.1 _ 0 1 pGen (by decide),
   c6_register_duplicate_key_combinations.2.2 regW 0 1 pGen (by decide)⟩

/-- C5: for every key and every container (in a well-formed heap, with
fuel covering the ancestry), `get` fails with the undefined-key condition
exactly when no container in the full ancestry chain — the container, its
parent, and so on — holds a value, resolver, or generator registration
for the key, and no injection declaration exists for the key.  (On each
miss the walk delegates to the parent: this iff quantifies over the whole
chain reached that way.) -/
theorem c5_undefined_key_iff_no_match_in_ancestry :
    ∀ (decls : Decls) (w : World) (c k fuel : Nat), w.wf → c < fuel →
      ((Container.get decls fuel w c k).2 = .error (.undefinedKey k) ↔
        (∀ a ∈ w.ancestors fuel c, hasProvider w a k = false) ∧
        alookup k decls.injects = none) :=
  fun decls w c k fuel hwf hlt => getImpl_undefinedKey_iff decls w hwf fuel c c k hlt

/-- Witness for C5: the iff applied to the concrete two-container chain of
`mdWorld` and an unregistered key, with the hypotheses discharged there. -/
theorem c5_witness :
    World.wf mdWorld ∧ 1 < 3 ∧
    ((Container.get {} 3 mdWorld 1 5).2 = .error (.undefinedKey 5) ↔
      (∀ a ∈ mdWorld.ancestors 3 1, hasProvider mdWorld a 5 = false) ∧
      alookup 5 ({} : Decls).injects = none) :=
  ⟨World.wf_of_wfB mdWorld (by decide), by decide,
   c5_undefined_key_iff_no_match_in_ancestry {} mdWorld 1 5 3
     (World.wf_of_wfB mdWorld (by decide)) (by decide)⟩

/-- C7: constructing a container with a scope tag and a parent fails with
the duplicate-scope condition — leaving the world unchanged, before the
container is created or any registration occurs — exactly when some node
of the supplied parent's ancestry (parent, parent's parent, …) carries
that tag as its own scope tag; nothing outside that ancestry (sibling
subtrees in particular) is consulted. -/
theorem c7_duplicate_scope_on_ancestry :
    ∀ (w : World) (fuel p s : Nat), w.wf → p < fuel →
      (Container.mk w fuel (some p) (some s) = (w, .error (.duplicateScope s)) ↔
        ∃ a ∈ w.ancestors fuel p, (w.cont a).scope = some s) := by
  intro w fuel p s hwf hlt
  rw [← scopeInChain_ok_true_iff w hwf fuel p s hlt]
  simp only [Container.mk]
  cases hchain : scopeInChain w fuel (some p) s with
  | error e =>
    have he := scopeInChain_error_eq w fuel (some p) s e hchain
    subst he
    apply iff_of_false
    · intro h
      have := congrArg Prod.snd h
      simp at this
    · intro h
      cases h
  | ok b =>
    cases b with
    | true => exact iff_of_true rfl rfl
    | false =>
      apply iff_of_false
      · intro h
        have := congrArg Prod.snd h
        simp at this
      · intro h
        cases h

/-- Witness for C7: the iff applied to the concrete chain
`R (id 0) ← P (id 1, scope 7) ← K (id 2)`, with hypotheses discharged. -/
theorem c7_witness :
    World.wf srWorld ∧ 2 < 4 ∧
    (Container.mk srWorld 4 (some 2) (some 7) = (srWorld, .error (.duplicateScope 7)) ↔
      ∃ a ∈ srWorld.ancestors 4 2, (srWorld.cont a).scope = some 7) :=
  ⟨World.wf_of_wfB srWorld (by decide), by decide,
   c7_duplicate_scope_on_ancestry srWorld 4 2 7 (World.wf_of_wfB srWorld (by decide))
     (by decide)⟩

/-- C10: disposal leaves every core field of every container — the value,
resolver, generator, per-key hook and scope tables, the frame list, the
parent reference and the scope tag — unchanged (first conjunct); and
since neither `get` nor `register` inspects the disposed flag or the
drained hook lists, a `get` issued on any container of a disposed world
returns exactly the result it would have returned before disposal (second
conjunct), and so does `register` (third conjunct). -/
theorem c10_dispose_frame_get_register_unchanged :
    (∀ fuel (w : World) c c',
        (((Container.dispose fuel w c).1).cont c').CoreEq (w.cont c')) ∧
    (∀ (decls : Decls) fuel (w : World) c f s k,
        (Container.getImpl decls fuel ((Container.dispose f w c).1) s s k).2 =
          (Container.getImpl decls fuel w s s k).2) ∧
    (∀ (w : World) c f c' k p,
        (Container.register ((Container.dispose f w c).1) c' k p).2 =
          (Container.register w c' k p).2) :=
  ⟨fun fuel w c c' => (dispose_coreEq fuel w c).cont c',
   fun decls fuel w c f s k =>
     (getImpl_congr decls fuel ((Container.dispose f w c).1) w s s k
       (dispose_coreEq f w c)).1,
   fun w c f c' k p => register_congr (dispose_coreEq f w c) c' k p⟩

/-- Witness for C9: the general cache-hit conjunct applied at the concrete
scenario, with its hypotheses discharged there. -/
theorem c9_witness :
    alookup 1 ((disposableValWorld.cont 0).values) = some ⟨7, true⟩ ∧
    Container.getImpl {} 4 disposableValWorld 0 0 1 =
      (disposableValWorld.pushHook 0 (.disposeValue ⟨7, true⟩), .ok ⟨7, true⟩) :=
  ⟨by decide,
   c9_cache_hit_pushes_dispose_hook_each_time.1 {} 3 disposableValWorld 0 0 1
     ⟨7, true⟩ (by decide) rfl⟩

end Dependency
